import Mathlib

/-!
Verification development for the cross-language import discovery engine in
`example/py/python_utils.py` (repository `go-to-import`).

The Python source is shallowly embedded: paths are lists of components,
the filesystem is an explicit list of entries carrying optional metadata
(`stat`) and optional readable `content` (`none` models an unreadable
entry), and every regular-expression pattern of the extractor is embedded
as an executable matcher over character lists that reproduces the
backtracking behaviour of the concrete patterns used by the source.
-/

namespace GoToImport

/-- Filesystem metadata, as returned by `Path.stat()`. -/
structure FsStat where
  st_size : Nat
  st_mtime : Int
deriving DecidableEq

/-- One entry enumerated by `project_root.rglob('*')`: its path components
relative to the project root, whether it is a regular file, its metadata
(`none` models a `stat()` call that raises), and its readable content
(`none` models an `open`/`read` that raises, or a directory). -/
structure FSEntry where
  relParts : List String
  isFile : Bool
  stat : Option FsStat
  content : Option String
deriving DecidableEq

/-- A project filesystem: the root path components and the enumerated
entries beneath the root, in enumeration order. -/
structure FileSystem where
  rootParts : List String
  entries : List FSEntry
deriving DecidableEq

/-- `FileInfo` dataclass of the source: name, project-relative path
(components), extension with leading dot, size, mtime, importable flag. -/
structure FileInfo where
  name : String
  path : List String
  extension : String
  size_bytes : Nat
  last_modified : Int
  is_importable : Bool
deriving DecidableEq

/-- Last component of a path (`Path.name`); empty for an empty path. -/
def lastPart (parts : List String) : String := parts.getLastD ""

/-- Index of the last occurrence of a dot in a character list, if any. -/
def lastDotIdxAux : List Char → Nat → Option Nat
  | [], _ => none
  | c :: cs, i =>
    match lastDotIdxAux cs (i + 1) with
    | some j => some j
    | none => if c = Char.ofNat 46 then some i else none

/-- `PurePath.suffix` of a file name: `name[i:]` for the last dot index
`i` when `0 < i < len(name) - 1`, otherwise the empty string. -/
def suffix (name : String) : String :=
  match lastDotIdxAux name.data 0 with
  | none => ""
  | some i =>
    if 0 < i ∧ i + 1 < name.data.length then String.mk (name.data.drop i) else ""

/-- The `ignore_patterns` list of `ProjectAnalyzer._should_ignore`. -/
def IGNORE_PATTERNS : List String :=
  ["*.pyc", "__pycache__", ".git", "node_modules", ".DS_Store", "*.vsix", "*.log"]

/-- `Path.match(pattern)` for the concrete single-component patterns used
by the source: a relative one-component glob is matched against the last
path component; `*SUF` matches any name ending in `SUF`, and a literal
pattern matches exactly. -/
def globMatch (name : String) (pat : String) : Bool :=
  match pat.data with
  | c :: rest => if c = Char.ofNat 42 then List.isSuffixOf rest name.data else name = pat
  | [] => name = pat

/-- `str.startswith('.')`. -/
def startsWithDot (s : String) : Bool :=
  match s.data with
  | c :: _ => c = Char.ofNat 46
  | [] => false

/-- `any(part.startswith('.') for part in file_path.parts[:-1])`. -/
def hiddenParent (parts : List String) : Bool :=
  parts.dropLast.any startsWithDot

/-- The pattern loop of `_should_ignore`: returns `true` as soon as a
pattern matches the last component or some non-final part is hidden. -/
def shouldIgnoreLoop (parts : List String) : List String → Bool
  | [] => false
  | pat :: rest =>
    if globMatch (lastPart parts) pat || hiddenParent parts then true
    else shouldIgnoreLoop parts rest

/-- `ProjectAnalyzer._should_ignore`, on the full path components. -/
def _should_ignore (parts : List String) : Bool :=
  shouldIgnoreLoop parts IGNORE_PATTERNS

/-- The importable-extension table `ProjectAnalyzer.IMPORTABLE_EXTENSIONS`. -/
def IMPORTABLE_EXTENSIONS : List (String × String) :=
  [(".py", "Python"), (".js", "JavaScript"), (".jsx", "JSX"), (".ts", "TypeScript"),
   (".tsx", "TSX"), (".json", "JSON"), (".css", "CSS")]

/-- `file_path.suffix in IMPORTABLE_EXTENSIONS` (key membership). -/
def inImportable (ext : String) : Bool :=
  IMPORTABLE_EXTENSIONS.any (fun kv => kv.1 = ext)

/-- `ProjectAnalyzer._create_file_info` for an entry whose `stat` succeeded. -/
def _create_file_info (root : List String) (e : FSEntry) (st : FsStat) : FileInfo :=
  let nm := lastPart (root ++ e.relParts)
  { name := nm
    path := e.relParts
    extension := suffix nm
    size_bytes := st.st_size
    last_modified := st.st_mtime
    is_importable := inImportable (suffix nm) }

/-- The enumeration loop of `ProjectAnalyzer.scan_project`: retained
entries (regular files that are not ignored) become `FileInfo` records in
enumeration order; a retained entry whose `stat()` raises aborts the scan
with the propagated error. -/
def scanLoop (root : List String) : List FSEntry → Except Unit (List FileInfo)
  | [] => .ok []
  | e :: rest =>
    if e.isFile && !(_should_ignore (root ++ e.relParts)) then
      match e.stat with
      | none => .error ()
      | some st => (scanLoop root rest).map (fun fs => _create_file_info root e st :: fs)
    else scanLoop root rest

/-- `ProjectAnalyzer.scan_project`. -/
def scan_project (fs : FileSystem) : Except Unit (List FileInfo) :=
  scanLoop fs.rootParts fs.entries

/-- Python `\s` / `str.strip()` whitespace characters (ASCII). -/
def isSpaceCh (c : Char) : Bool :=
  c = Char.ofNat 32 || c = Char.ofNat 9 || c = Char.ofNat 10 ||
  c = Char.ofNat 13 || c = Char.ofNat 11 || c = Char.ofNat 12

/-- `str.strip()` on a character list. -/
def pyStrip (cs : List Char) : List Char :=
  ((cs.dropWhile isSpaceCh).reverse.dropWhile isSpaceCh).reverse

/-- Consume a literal character sequence, returning the remainder. -/
def consumeLit : List Char → List Char → Option (List Char)
  | [], s => some s
  | _ :: _, [] => none
  | l :: ls, c :: cs => if l = c then consumeLit ls cs else none

/-- `\s+` followed by greedy consumption: requires at least one
whitespace character, then skips the maximal whitespace run. -/
def ws1 : List Char → Option (List Char)
  | [] => none
  | c :: cs => if isSpaceCh c then some (cs.dropWhile isSpaceCh) else none

/-- First character class `[a-zA-Z_]` of the dotted-name patterns. -/
def isIdentStart (c : Char) : Bool := c.isAlpha || c = Char.ofNat 95

/-- Continuation class `[a-zA-Z0-9_.]` of the dotted-name patterns. -/
def isIdentCh (c : Char) : Bool := c.isAlphanum || c = Char.ofNat 95 || c = Char.ofNat 46

/-- Greedy `[a-zA-Z_][a-zA-Z0-9_.]*` token: the captured token and the
remainder.  The classes are disjoint from whitespace, so the greedy
match coincides with the regex engine's backtracking match. -/
def identTok : List Char → Option (List Char × List Char)
  | [] => none
  | c :: cs =>
    if isIdentStart c then some (c :: cs.takeWhile isIdentCh, cs.dropWhile isIdentCh)
    else none

/-- A per-line lexical pattern: the capture group on success. -/
abbrev Pat := List Char → Option (List Char)

/-- Python pattern 1: `^\s*import\s+([a-zA-Z_][a-zA-Z0-9_.]*)`. -/
def pyPat1 : Pat := fun s =>
  let s := s.dropWhile isSpaceCh
  match consumeLit "import".data s with
  | none => none
  | some r =>
    match ws1 r with
    | none => none
    | some r2 => (identTok r2).map Prod.fst

/-- Python pattern 2: `^\s*from\s+([a-zA-Z_][a-zA-Z0-9_.]*)\s+import`. -/
def pyPat2 : Pat := fun s =>
  let s := s.dropWhile isSpaceCh
  match consumeLit "from".data s with
  | none => none
  | some r =>
    match ws1 r with
    | none => none
    | some r2 =>
      match identTok r2 with
      | none => none
      | some (cap, r3) =>
        match ws1 r3 with
        | none => none
        | some r4 => (consumeLit "import".data r4).map (fun _ => cap)

/-- Python pattern 3: `^\s*from\s+(\.[a-zA-Z_][a-zA-Z0-9_.]*)\s+import`
(the relative-import variant; the capture keeps the leading dot). -/
def pyPat3 : Pat := fun s =>
  let s := s.dropWhile isSpaceCh
  match consumeLit "from".data s with
  | none => none
  | some r =>
    match ws1 r with
    | none => none
    | some r2 =>
      match consumeLit [Char.ofNat 46] r2 with
      | none => none
      | some r3 =>
        match identTok r3 with
        | none => none
        | some (cap, r4) =>
          match ws1 r4 with
          | none => none
          | some r5 => (consumeLit "import".data r5).map (fun _ => Char.ofNat 46 :: cap)

/-- `ImportExtractor.PYTHON_IMPORT_PATTERNS`, in declared order. -/
def PYTHON_IMPORT_PATTERNS : List Pat := [pyPat1, pyPat2, pyPat3]

/-- The quote class `['"]`. -/
def isQuoteCh (c : Char) : Bool := c = Char.ofNat 39 || c = Char.ofNat 34

/-- `['"]([^'"]+)['"]`: an opening quote, a non-empty maximal run of
non-quote characters (the capture), a closing quote (either quote
character), and the remainder after the closing quote. -/
def quotedTok : List Char → Option (List Char × List Char)
  | [] => none
  | q :: rest =>
    if isQuoteCh q then
      match rest.dropWhile (fun c => !isQuoteCh c) with
      | c2 :: r2 =>
        if isQuoteCh c2 ∧ rest.takeWhile (fun c => !isQuoteCh c) ≠ [] then
          some (rest.takeWhile (fun c => !isQuoteCh c), r2)
        else none
      | [] => none
    else none

/-- Rightmost-first search over the suffixes of the input, reproducing a
greedy `.*` followed by the tail matcher `f`: the regex engine tries the
longest `.*` first, i.e. the rightmost viable tail position wins. -/
def searchLast (f : List Char → Option (List Char)) : List Char → Option (List Char)
  | [] => f []
  | c :: rest =>
    match searchLast f rest with
    | some x => some x
    | none => f (c :: rest)

/-- Tail of JavaScript pattern 1 after `.*`: `from\s+['"]([^'"]+)['"]`. -/
def js1Tail : List Char → Option (List Char) := fun t =>
  match consumeLit "from".data t with
  | none => none
  | some t1 =>
    match ws1 t1 with
    | none => none
    | some t2 => (quotedTok t2).map Prod.fst

/-- JavaScript pattern 1: `^\s*import.*from\s+['"]([^'"]+)['"]`. -/
def jsPat1 : Pat := fun s =>
  let s := s.dropWhile isSpaceCh
  match consumeLit "import".data s with
  | none => none
  | some r => searchLast js1Tail r

/-- JavaScript pattern 2: `^\s*import\s+['"]([^'"]+)['"]`. -/
def jsPat2 : Pat := fun s =>
  let s := s.dropWhile isSpaceCh
  match consumeLit "import".data s with
  | none => none
  | some r =>
    match ws1 r with
    | none => none
    | some r2 => (quotedTok r2).map Prod.fst

/-- Tail of JavaScript pattern 3 after `.*`:
`=\s*require\(['"]([^'"]+)['"]\)`. -/
def js3Tail : List Char → Option (List Char) := fun t =>
  match consumeLit [Char.ofNat 61] t with
  | none => none
  | some t1 =>
    match consumeLit "require(".data (t1.dropWhile isSpaceCh) with
    | none => none
    | some t3 =>
      match quotedTok t3 with
      | none => none
      | some (cap, r) => (consumeLit [Char.ofNat 41] r).map (fun _ => cap)

/-- JavaScript pattern 3: `^\s*const.*=\s*require\(['"]([^'"]+)['"]\)`. -/
def jsPat3 : Pat := fun s =>
  let s := s.dropWhile isSpaceCh
  match consumeLit "const".data s with
  | none => none
  | some r => searchLast js3Tail r

/-- `ImportExtractor.JAVASCRIPT_IMPORT_PATTERNS`, in declared order. -/
def JAVASCRIPT_IMPORT_PATTERNS : List Pat := [jsPat1, jsPat2, jsPat3]

/-- The inner pattern loop of the extractor: try the patterns in
declared order; the first match wins and ends the loop (`break`). -/
def tryPatternsLoop : List Pat → List Char → Option (List Char)
  | [], _ => none
  | p :: ps, s =>
    match p s with
    | some t => some t
    | none => tryPatternsLoop ps s

/-- `content.split('\n')`. -/
def splitNl : List Char → List (List Char)
  | [] => [[]]
  | c :: rest =>
    if c = Char.ofNat 10 then [] :: splitNl rest
    else
      match splitNl rest with
      | l :: ls => (c :: l) :: ls
      | [] => [[c]]

/-- Per-line contribution of `_extract_python_imports`: the patterns are
applied with `re.match` to `line.strip()`. -/
def pyLineMatch (line : List Char) : Option (List Char) :=
  tryPatternsLoop PYTHON_IMPORT_PATTERNS (pyStrip line)

/-- Per-line contribution of `_extract_javascript_imports` (`re.search`,
but every pattern is anchored with `^`, so it coincides with `re.match`). -/
def jsLineMatch (line : List Char) : Option (List Char) :=
  tryPatternsLoop JAVASCRIPT_IMPORT_PATTERNS (pyStrip line)

/-- `ImportExtractor._extract_python_imports`. -/
def _extract_python_imports (content : String) : List String :=
  ((splitNl content.data).filterMap pyLineMatch).map String.mk

/-- `ImportExtractor._extract_javascript_imports`. -/
def _extract_javascript_imports (content : String) : List String :=
  ((splitNl content.data).filterMap jsLineMatch).map String.mk

/-- `path.exists()` against the scanned filesystem. -/
def pathExists (fs : FileSystem) (rel : List String) : Bool :=
  fs.entries.any (fun e => e.relParts = rel)

/-- Reading a file's content: `none` models a nonexistent entry, a read
error, or a directory. -/
def readContent (fs : FileSystem) (rel : List String) : Option String :=
  (fs.entries.find? (fun e => e.relParts = rel)).bind FSEntry.content

/-- `ImportExtractor.extract_imports_from_file`: empty on a nonexistent
path, empty on a read error, then dispatch on the suffix; any other
suffix yields the empty list. -/
def extract_imports_from_file (fs : FileSystem) (rel : List String) : List String :=
  if pathExists fs rel then
    match readContent fs rel with
    | none => []
    | some content =>
      if suffix (lastPart rel) = ".py" then _extract_python_imports content
      else if suffix (lastPart rel) ∈ [".js", ".jsx", ".ts", ".tsx"] then
        _extract_javascript_imports content
      else []
  else []

/-- `ProjectAnalyzer.get_importable_files`. -/
def get_importable_files (files : List FileInfo) : List FileInfo :=
  files.filter (fun f => f.is_importable)

/-- `IMPORTABLE_EXTENSIONS.get(extension, 'Other')`. -/
def lookupLang (ext : String) : String :=
  match IMPORTABLE_EXTENSIONS.find? (fun kv => kv.1 = ext) with
  | some kv => kv.2
  | none => "Other"

/-- Insertion-ordered dict update of `get_files_by_language`: append the
record to the language's bucket, creating the bucket at the end if new. -/
def insertByLang (acc : List (String × List FileInfo)) (lang : String) (fi : FileInfo) :
    List (String × List FileInfo) :=
  match acc with
  | [] => [(lang, [fi])]
  | (l, fls) :: rest =>
    if l = lang then (l, fls ++ [fi]) :: rest
    else (l, fls) :: insertByLang rest lang fi

/-- `ProjectAnalyzer.get_files_by_language`. -/
def get_files_by_language (files : List FileInfo) : List (String × List FileInfo) :=
  (get_importable_files files).foldl
    (fun acc fi => insertByLang acc (lookupLang fi.extension) fi) []

/-- `ProjectAnalyzer.find_import_targets`: all importable files of the
same directory (other than the file itself) as `./name`, then all
importable files of the parent directory as `../name` when the file's
directory is not the project root; empty if the path does not exist. -/
def find_import_targets (fs : FileSystem) (files : List FileInfo) (file_path : List String) :
    List String :=
  if pathExists fs file_path then
    let root := fs.rootParts
    let current := root ++ file_path
    let currentDir := current.dropLast
    let same := files.filterMap (fun fi =>
      if (root ++ fi.path).dropLast = currentDir ∧ root ++ fi.path ≠ current ∧
          fi.is_importable = true then
        some ("./" ++ fi.name)
      else none)
    let parents :=
      if currentDir ≠ root then
        files.filterMap (fun fi =>
          if (root ++ fi.path).dropLast = currentDir.dropLast ∧ fi.is_importable = true then
            some ("../" ++ fi.name)
          else none)
      else []
    same ++ parents
  else []

/-- The aggregate report of `analyze_cross_language_imports`. -/
structure Analysis where
  project_root : List String
  total_files : Nat
  importable_files : Nat
  by_language : List (String × Nat × List String)
  import_relationships : List (List String × List String)
deriving DecidableEq

/-- Loop body of the import-relationships pass: a file with a non-empty
extraction contributes its path mapped to the first five imports. -/
def relStep (fs : FileSystem) (acc : List (List String × List String)) (fi : FileInfo) :
    List (List String × List String) :=
  let imports := extract_imports_from_file fs fi.path
  if imports = [] then acc else acc ++ [(fi.path, imports.take 5)]

/-- `analyze_cross_language_imports`: scans (propagating a scan error),
counts files, groups importables by language keeping the first five
names per language, and records the first five imports for each of the
first ten importable files whose extraction is non-empty. -/
def analyze_cross_language_imports (fs : FileSystem) : Except Unit Analysis :=
  match scan_project fs with
  | .error e => .error e
  | .ok files =>
    let importables := get_importable_files files
    .ok {
      project_root := fs.rootParts
      total_files := files.length
      importable_files := importables.length
      by_language := (get_files_by_language files).map
        (fun p => (p.1, p.2.length, (p.2.take 5).map FileInfo.name))
      import_relationships := (importables.take 10).foldl (relStep fs) [] }

/-- The two source languages the extractor supports patterns for. -/
inductive SrcLang
  | python
  | javascript
deriving DecidableEq

/-- The declared pattern list of each supported language. -/
def patternsFor : SrcLang → List Pat
  | .python => PYTHON_IMPORT_PATTERNS
  | .javascript => JAVASCRIPT_IMPORT_PATTERNS

/-- The per-language extraction routine of `ImportExtractor`. -/
def extractFor : SrcLang → String → List String
  | .python => _extract_python_imports
  | .javascript => _extract_javascript_imports

/-- Fixture: a project whose only file lies under a `node_modules`
directory, with a non-hidden root. -/
def fsC1 : FileSystem :=
  ⟨["proj"], [⟨["node_modules", "foo.js"], true, some ⟨7, 0⟩, some ""⟩]⟩

/-- The record the scan produces for `node_modules/foo.js`. -/
def fooRecC1 : FileInfo :=
  ⟨"foo.js", ["node_modules", "foo.js"], ".js", 7, 0, true⟩

/-- Fixture: a project whose second file has unreadable metadata. -/
def fsC2 : FileSystem :=
  ⟨["proj"],
   [⟨["a.py"], true, some ⟨1, 0⟩, some ""⟩,
    ⟨["b.py"], true, none, none⟩,
    ⟨["c.py"], true, some ⟨2, 0⟩, some ""⟩]⟩

/-- The entry of `fsC2` whose `stat()` raises. -/
def badEntryC2 : FSEntry := ⟨["b.py"], true, none, none⟩

/-- Fixture: `a/b.py` declaring `from .c import x`, with an importable
sibling `a/c.py`. -/
def fsC5 : FileSystem :=
  ⟨["proj"],
   [⟨["a", "b.py"], true, some ⟨1, 0⟩, some "from .c import x"⟩,
    ⟨["a", "c.py"], true, some ⟨1, 0⟩, some ""⟩]⟩

/-- The scanned record of the sibling `a/c.py`. -/
def fiC5 : FileInfo := ⟨"c.py", ["a", "c.py"], ".py", 1, 0, true⟩

/-- Fixture: a small project with two importable Python files, one
non-importable text file and one directory entry. -/
def fsW : FileSystem :=
  ⟨["proj"],
   [⟨["main.py"], true, some ⟨3, 5⟩, some "import os\nx = 1\nfrom .sib import f"⟩,
    ⟨["sib.py"], true, some ⟨4, 6⟩, some ""⟩,
    ⟨["notes.txt"], true, some ⟨2, 7⟩, some "import os"⟩,
    ⟨["docs"], false, none, none⟩]⟩

/-- The scan result of `fsW`. -/
def filesW : List FileInfo :=
  [⟨"main.py", ["main.py"], ".py", 3, 5, true⟩,
   ⟨"sib.py", ["sib.py"], ".py", 4, 6, true⟩,
   ⟨"notes.txt", ["notes.txt"], ".txt", 2, 7, false⟩]

/-- The scanned record of `main.py` in `fsW`. -/
def fiMainW : FileInfo := ⟨"main.py", ["main.py"], ".py", 3, 5, true⟩

/-- The report produced for `fsW`. -/
def repW : Analysis :=
  ⟨["proj"], 3, 2, [("Python", 2, ["main.py", "sib.py"])],
   [(["main.py"], ["os", ".sib"])]⟩

/-- Fixture: six importable Python files at the root; the first one
declares one import. -/
def fsC7 : FileSystem :=
  ⟨["p"],
   [⟨["a.py"], true, some ⟨1, 0⟩, some "import os"⟩,
    ⟨["b.py"], true, some ⟨1, 0⟩, some ""⟩,
    ⟨["c.py"], true, some ⟨1, 0⟩, some ""⟩,
    ⟨["d.py"], true, some ⟨1, 0⟩, some ""⟩,
    ⟨["e.py"], true, some ⟨1, 0⟩, some ""⟩,
    ⟨["f.py"], true, some ⟨1, 0⟩, some ""⟩]⟩

/-- The scan result of `fsC7`. -/
def filesC7 : List FileInfo :=
  [⟨"a.py", ["a.py"], ".py", 1, 0, true⟩,
   ⟨"b.py", ["b.py"], ".py", 1, 0, true⟩,
   ⟨"c.py", ["c.py"], ".py", 1, 0, true⟩,
   ⟨"d.py", ["d.py"], ".py", 1, 0, true⟩,
   ⟨"e.py", ["e.py"], ".py", 1, 0, true⟩,
   ⟨"f.py", ["f.py"], ".py", 1, 0, true⟩]

/-- The report produced for `fsC7`: six Python files but only five
sample names. -/
def repC7 : Analysis :=
  ⟨["p"], 6, 6, [("Python", 6, ["a.py", "b.py", "c.py", "d.py", "e.py"])],
   [(["a.py"], ["os"])]⟩

instance {ε α : Type} [DecidableEq ε] [DecidableEq α] : DecidableEq (Except ε α) := fun a b =>
  match a, b with
  | .ok x, .ok y =>
    if h : x = y then .isTrue (by rw [h]) else .isFalse (by intro hh; cases hh; exact h rfl)
  | .error x, .error y =>
    if h : x = y then .isTrue (by rw [h]) else .isFalse (by intro hh; cases hh; exact h rfl)
  | .ok _, .error _ => .isFalse (by intro hh; cases hh)
  | .error _, .ok _ => .isFalse (by intro hh; cases hh)

/-! ## Theorems -/

/-- C1.  The intended ignore behaviour fails for ignore globs that name
directories: `_should_ignore` tests each glob only against the path's
final component (plus the dot-directory check on the parents), so the
file `node_modules/foo.js` — which lies under a directory matching the
configured ignore glob `node_modules` and has an importable `.js`
extension — is retained by `scan_project` and appears in its
`FileInfo` output. -/
theorem scan_retains_file_under_ignored_directory :
    "node_modules" ∈ IGNORE_PATTERNS ∧
    globMatch "node_modules" "node_modules" = true ∧
    _should_ignore ["proj", "node_modules", "foo.js"] = false ∧
    scan_project fsC1 = .ok [fooRecC1] ∧
    fooRecC1.is_importable = true := by
  refine ⟨by decide, by decide, by decide, rfl, rfl⟩

/-- C2 (counterexample).  A retained file whose metadata cannot be read
is not silently skipped: in `fsC2` the entry `b.py` is a regular
non-ignored file with unreadable metadata, and the scan aborts with an
error instead of completing with the remaining records. -/
theorem scan_error_on_unreadable_stat :
    badEntryC2 ∈ fsC2.entries ∧
    badEntryC2.isFile = true ∧
    _should_ignore (fsC2.rootParts ++ badEntryC2.relParts) = false ∧
    badEntryC2.stat = none ∧
    scan_project fsC2 = .error () := by
  refine ⟨by decide, rfl, by decide, rfl, rfl⟩

/-- The scan enumeration loop aborts when the list contains a retained
entry with unreadable metadata. -/
theorem scanLoop_error_of_mem (root : List String) (l : List FSEntry) (e : FSEntry)
    (he : e ∈ l)
    (hret : (e.isFile && !(_should_ignore (root ++ e.relParts))) = true)
    (hstat : e.stat = none) :
    scanLoop root l = .error () := by
  induction l with
  | nil => cases he
  | cons a rest ih =>
    rcases List.mem_cons.mp he with rfl | hmem
    · simp [scanLoop, hret, hstat]
    · by_cases hc : (a.isFile && !(_should_ignore (root ++ a.relParts))) = true
      · cases hsa : a.stat with
        | none => simp [scanLoop, hc, hsa]
        | some st => simp [scanLoop, hc, hsa, ih hmem, Except.map]
      · simp [scanLoop, hc, ih hmem]

/-- C2 (amended).  Whenever some enumerated entry is a retained regular
file (not ignored) whose metadata read fails, `scan_project` propagates
the error and aborts: no `FileInfo` list is produced. -/
theorem scan_aborts_on_unreadable_metadata (fs : FileSystem) (e : FSEntry)
    (he : e ∈ fs.entries)
    (hret : (e.isFile && !(_should_ignore (fs.rootParts ++ e.relParts))) = true)
    (hstat : e.stat = none) :
    scan_project fs = .error () :=
  scanLoop_error_of_mem fs.rootParts fs.entries e he hret hstat

/-- C2 (witness for the amended theorem): the scan of `fsC2` aborts. -/
theorem scan_aborts_on_unreadable_metadata_witness :
    scan_project fsC2 = .error () :=
  scan_aborts_on_unreadable_metadata fsC2 badEntryC2 (by decide) (by decide) rfl

/-- C4 (counterexample).  The dotted-module pattern family does not
recognize every leading-dot relative form: `from . import name` (bare
dot) and `from ..name import x` (two dots) match none of the declared
Python patterns, so no target is extracted from either line. -/
theorem relative_import_forms_not_recognized :
    pyLineMatch "from . import name".data = none ∧
    pyLineMatch "from ..name import x".data = none := by
  refine ⟨by decide, by decide⟩

/-- C4 (amended).  The relative-import variant recognizes exactly a
single leading dot followed by a dotted name: `from .name import x`
yields the raw target `.name` including its leading dot, while the
bare-dot form `from . import name` and the multi-dot form
`from ..name import x` are not recognized and yield nothing. -/
theorem single_dot_relative_import_recognized :
    _extract_python_imports "from .name import x" = [".name"] ∧
    _extract_python_imports "from . import name" = [] ∧
    _extract_python_imports "from ..name import x" = [] := by
  refine ⟨by decide, by decide, by decide⟩

/-- The inner pattern loop returns the value of the first matching
pattern in declared order. -/
theorem tryPatternsLoop_first (pats : List Pat) (s : List Char) (i : Nat)
    (hi : i < pats.length) (t : List Char)
    (hm : pats.get ⟨i, hi⟩ s = some t)
    (hprev : ∀ j (hj : j < i), pats.get ⟨j, Nat.lt_trans hj hi⟩ s = none) :
    tryPatternsLoop pats s = some t := by
  induction pats generalizing i with
  | nil => exact absurd hi (Nat.not_lt_zero i)
  | cons p ps ih =>
    cases i with
    | zero =>
      simp only [List.get] at hm
      simp [tryPatternsLoop, hm]
    | succ k =>
      have h0 : p s = none := hprev 0 (Nat.succ_pos k)
      simp only [List.get] at hm
      simp only [tryPatternsLoop, h0]
      exact ih k (Nat.lt_of_succ_lt_succ hi) hm
        (fun j hj => hprev (j + 1) (Nat.succ_lt_succ hj))

/-- A character list without a newline splits into a single line. -/
theorem splitNl_no_nl (l : List Char) (h : Char.ofNat 10 ∉ l) : splitNl l = [l] := by
  induction l with
  | nil => rfl
  | cons c rest ih =>
    have hc : ¬ c = Char.ofNat 10 := fun hh => h (hh ▸ List.mem_cons_self c rest)
    have hr : Char.ofNat 10 ∉ rest := fun hh => h (List.mem_cons_of_mem c hh)
    simp [splitNl, hc, ih hr]

/-- C3.  For every supported language and every single input line, the
extractor contributes exactly one target when some declared pattern
matches: the patterns are tried in declared order and the first match
wins, so a line matching two or more patterns yields exactly the
target of the earliest declared matching pattern. -/
theorem line_first_matching_pattern_wins (lang : SrcLang) (line : String)
    (hnl : Char.ofNat 10 ∉ line.data) (i : Nat)
    (hi : i < (patternsFor lang).length) (t : List Char)
    (hm : (patternsFor lang).get ⟨i, hi⟩ (pyStrip line.data) = some t)
    (hprev : ∀ j (hj : j < i),
      (patternsFor lang).get ⟨j, Nat.lt_trans hj hi⟩ (pyStrip line.data) = none) :
    extractFor lang line = [String.mk t] := by
  have hloop : tryPatternsLoop (patternsFor lang) (pyStrip line.data) = some t :=
    tryPatternsLoop_first _ _ i hi t hm hprev
  cases lang with
  | python =>
    simp only [extractFor, _extract_python_imports, splitNl_no_nl line.data hnl,
      List.filterMap, pyLineMatch]
    simp [patternsFor] at hloop
    simp [hloop]
  | javascript =>
    simp only [extractFor, _extract_javascript_imports, splitNl_no_nl line.data hnl,
      List.filterMap, jsLineMatch]
    simp [patternsFor] at hloop
    simp [hloop]

/-- C3 (witness): the line `import "a" from "b"` matches both the first
and the second declared JavaScript pattern; extraction yields exactly
the first pattern's capture `b`. -/
theorem line_first_matching_pattern_wins_witness :
    jsPat2 (pyStrip "import \"a\" from \"b\"".data) = some "a".data ∧
    extractFor SrcLang.javascript "import \"a\" from \"b\"" = [String.mk "b".data] :=
  ⟨by decide,
   line_first_matching_pattern_wins SrcLang.javascript "import \"a\" from \"b\""
     (by decide) 0 (by decide) "b".data (by decide)
     (fun j hj => absurd hj (Nat.not_lt_zero j))⟩

/-- Every record of a successful scan comes from an enumerated entry
with readable metadata via `_create_file_info`. -/
theorem scanLoop_mem (root : List String) (l : List FSEntry) (files : List FileInfo)
    (fi : FileInfo) (h : scanLoop root l = .ok files) (hfi : fi ∈ files) :
    ∃ e st, e ∈ l ∧ e.stat = some st ∧ fi = _create_file_info root e st := by
  induction l generalizing files with
  | nil =>
    simp [scanLoop] at h
    subst h
    cases hfi
  | cons a rest ih =>
    by_cases hc : (a.isFile && !(_should_ignore (root ++ a.relParts))) = true
    · cases hsa : a.stat with
      | none => simp [scanLoop, hc, hsa] at h
      | some st =>
        simp only [scanLoop, hc, if_true, hsa] at h
        cases hrec : scanLoop root rest with
        | error err => rw [hrec] at h; simp [Except.map] at h
        | ok rest' =>
          rw [hrec] at h
          simp only [Except.map, Except.ok.injEq] at h
          subst h
          rcases List.mem_cons.mp hfi with rfl | hmem
          · exact ⟨a, st, List.mem_cons_self a rest, hsa, rfl⟩
          · obtain ⟨e, st', he, hst, heq⟩ := ih rest' hrec hmem
            exact ⟨e, st', List.mem_cons_of_mem a he, hst, heq⟩
    · simp only [scanLoop, hc, if_false] at h
      obtain ⟨e, st', he, hst, heq⟩ := ih files h hfi
      exact ⟨e, st', List.mem_cons_of_mem a he, hst, heq⟩

/-- The importable-flag test agrees with key membership in the table. -/
theorem inImportable_iff (s : String) :
    inImportable s = true ↔ s ∈ IMPORTABLE_EXTENSIONS.map Prod.fst := by
  simp [inImportable, List.any_eq_true, List.mem_map]

/-- C6.  In every successful scan, a produced `FileInfo` has
`is_importable = true` exactly when its `extension` is a key of the
importable-extension table: both fields are derived from the same
suffix in `_create_file_info`. -/
theorem scanned_importable_iff_extension_in_table (fs : FileSystem)
    (files : List FileInfo) (fi : FileInfo)
    (h : scan_project fs = .ok files) (hfi : fi ∈ files) :
    fi.is_importable = true ↔ fi.extension ∈ IMPORTABLE_EXTENSIONS.map Prod.fst := by
  obtain ⟨e, st, _, _, rfl⟩ := scanLoop_mem fs.rootParts fs.entries files fi h hfi
  exact inImportable_iff _

/-- C6 (witness): the record scanned for `main.py` in `fsW`. -/
theorem scanned_importable_iff_extension_in_table_witness :
    fiMainW.is_importable = true ↔ fiMainW.extension ∈ IMPORTABLE_EXTENSIONS.map Prod.fst :=
  scanned_importable_iff_extension_in_table fsW filesW fiMainW rfl (by decide)

/-- C5.  Resolution round-trip: when the scanned file set contains a
source file `a/b.ext` (existing on disk) whose content declares a
same-level relative import of `c`, and an importable sibling record
`a/c.ext`, then `find_import_targets` on `a/b.ext` returns the sibling
(as the candidate `./c.ext`) among its candidates.  The code's
same-directory pass is content-independent, so the sibling is listed
whether or not the declaration is consulted. -/
theorem sibling_is_candidate (fs : FileSystem) (files : List FileInfo)
    (dirA : List String) (bName cName stem ext bContent : String) (fiC : FileInfo)
    (hex : pathExists fs (dirA ++ [bName]) = true)
    (hmem : fiC ∈ files)
    (hpath : fiC.path = dirA ++ [cName])
    (himp : fiC.is_importable = true)
    (hname : fiC.name = cName)
    (hne : bName ≠ cName)
    (_hcName : cName = stem ++ ext)
    (_hdecl : (Char.ofNat 46 :: stem.data) ∈ (splitNl bContent.data).filterMap pyLineMatch) :
    ("./" ++ cName) ∈ find_import_targets fs files (dirA ++ [bName]) := by
  unfold find_import_targets
  rw [hex]
  simp only [if_true]
  apply List.mem_append_left
  apply List.mem_filterMap.mpr
  refine ⟨fiC, hmem, ?_⟩
  have hdropC : (fs.rootParts ++ fiC.path).dropLast = fs.rootParts ++ dirA := by
    rw [hpath, ← List.append_assoc]
    simp
  have hdropB : (fs.rootParts ++ (dirA ++ [bName])).dropLast = fs.rootParts ++ dirA := by
    rw [← List.append_assoc]
    simp
  have hneq : fs.rootParts ++ fiC.path ≠ fs.rootParts ++ (dirA ++ [bName]) := by
    rw [hpath, ← List.append_assoc, ← List.append_assoc]
    intro hcontra
    have := List.append_cancel_left hcontra
    simp at this
    exact hne (this.symm)
  rw [if_pos ⟨by rw [hdropC, hdropB], hneq, himp⟩, hname]

/-- C5 (witness): in `fsC5`, resolving from `a/b.py` (which declares
`from .c import x`) lists the sibling `./c.py`. -/
theorem sibling_is_candidate_witness :
    ("./" ++ "c.py") ∈ find_import_targets fsC5 [fiC5] (["a"] ++ ["b.py"]) :=
  sibling_is_candidate fsC5 [fiC5] ["a"] "b.py" "c.py" "c" ".py" "from .c import x" fiC5
    (by decide) (by decide) rfl rfl rfl (by decide) (by decide) (by decide)

/-- Invariant of the import-relationships fold: every produced pair maps
a path to the non-empty first-five truncation of its extraction. -/
theorem relStep_foldl_spec (fs : FileSystem) (l : List FileInfo)
    (acc : List (List String × List String))
    (hacc : ∀ q ∈ acc, q.2 = (extract_imports_from_file fs q.1).take 5 ∧ q.2 ≠ []) :
    ∀ q ∈ l.foldl (relStep fs) acc,
      q.2 = (extract_imports_from_file fs q.1).take 5 ∧ q.2 ≠ [] := by
  induction l generalizing acc with
  | nil => exact hacc
  | cons fi rest ih =>
    intro q hq
    refine ih (relStep fs acc fi) ?_ q hq
    intro p hp
    unfold relStep at hp
    by_cases hz : extract_imports_from_file fs fi.path = []
    · rw [if_pos hz] at hp
      exact hacc p hp
    · rw [if_neg hz] at hp
      rcases List.mem_append.mp hp with hl | hr
      · exact hacc p hl
      · rcases List.mem_singleton.mp hr with rfl
        refine ⟨rfl, ?_⟩
        cases hcase : extract_imports_from_file fs fi.path with
        | nil => exact absurd hcase hz
        | cons x xs => simp [hcase]

/-- C7 (counterexample).  The sample caps are hidden constants, not a
configuration option: `fsC7` has six Python files, yet the produced
per-language sample holds exactly the first five names — there is no
`sampleLimit` input through which a caller could configure the cap. -/
theorem sample_cap_is_hardcoded_five :
    (analyze_cross_language_imports fsC7).map Analysis.by_language =
      .ok [("Python", 6, ["a.py", "b.py", "c.py", "d.py", "e.py"])] ∧
    (analyze_cross_language_imports fsC7).map Analysis.importable_files = .ok 6 := by
  refine ⟨rfl, rfl⟩

/-- C7 (amended).  The report caps sample lists deterministically at the
hard-coded constant 5: each by-language sample is the first five file
names of that language's bucket in scan order, and each relationships
value is the first five extracted imports of its file in extraction
order; both lists have length at most 5.  The cap is not configurable. -/
theorem sample_caps_deterministic_first_five (fs : FileSystem)
    (files : List FileInfo) (rep : Analysis)
    (hscan : scan_project fs = .ok files)
    (han : analyze_cross_language_imports fs = .ok rep)
    (p : String × Nat × List String) (q : List String × List String)
    (hp : p ∈ rep.by_language) (hq : q ∈ rep.import_relationships) :
    rep.by_language = (get_files_by_language files).map
      (fun r => (r.1, r.2.length, (r.2.take 5).map FileInfo.name)) ∧
    p.2.2.length ≤ 5 ∧
    q.2 = (extract_imports_from_file fs q.1).take 5 ∧
    q.2.length ≤ 5 := by
  unfold analyze_cross_language_imports at han
  rw [hscan] at han
  simp only [Except.ok.injEq] at han
  subst han
  refine ⟨rfl, ?_, ?_, ?_⟩
  · simp only at hp
    obtain ⟨r, _, rfl⟩ := List.mem_map.mp hp
    simp [List.length_take_le]
  · exact (relStep_foldl_spec fs _ [] (by intro q hq; cases hq) q hq).1
  · have := relStep_foldl_spec fs _ [] (by intro q hq; cases hq) q hq
    rw [this.1]
    exact List.length_take_le 5 _

/-- C7 (witness for the amended theorem), at `fsC7`. -/
theorem sample_caps_deterministic_first_five_witness :
    repC7.by_language = (get_files_by_language filesC7).map
      (fun r => (r.1, r.2.length, (r.2.take 5).map FileInfo.name)) ∧
    (("Python", 6, ["a.py", "b.py", "c.py", "d.py", "e.py"]) :
      String × Nat × List String).2.2.length ≤ 5 ∧
    ((["a.py"], ["os"]) : List String × List String).2 =
      (extract_imports_from_file fsC7 (["a.py"], ["os"]).1).take 5 ∧
    ((["a.py"], ["os"]) : List String × List String).2.length ≤ 5 :=
  sample_caps_deterministic_first_five fsC7 filesC7 repC7 rfl rfl
    ("Python", 6, ["a.py", "b.py", "c.py", "d.py", "e.py"]) (["a.py"], ["os"])
    (by decide) (by decide)

/-- C9.  A file appears as a key of `import_relationships` only when its
extraction was non-empty: no value of the mapping is the empty list. -/
theorem relationships_values_nonempty (fs : FileSystem) (rep : Analysis)
    (q : List String × List String)
    (han : analyze_cross_language_imports fs = .ok rep)
    (hq : q ∈ rep.import_relationships) :
    q.2 ≠ [] := by
  unfold analyze_cross_language_imports at han
  cases hscan : scan_project fs with
  | error err => rw [hscan] at han; cases han
  | ok files =>
    rw [hscan] at han
    simp only [Except.ok.injEq] at han
    subst han
    exact (relStep_foldl_spec fs _ [] (by intro p hp; cases hp) q hq).2

/-- C9 (witness): the single relationships entry of `fsW` is non-empty. -/
theorem relationships_values_nonempty_witness :
    ((["main.py"], ["os", ".sib"]) : List String × List String).2 ≠ [] :=
  relationships_values_nonempty fsW repW (["main.py"], ["os", ".sib"]) rfl (by decide)

/-- C8.  Import extraction is total and silently degrades to the empty
sequence: an unsupported suffix yields `[]` whatever the filesystem
holds, a nonexistent path yields `[]`, an unreadable file yields `[]`,
and content none of whose lines matches a pattern yields `[]` for both
language extractors (a non-matching line contributes nothing). -/
theorem extraction_total (fs : FileSystem) (rel : List String) (content : String) :
    (suffix (lastPart rel) ∉ ([".py", ".js", ".jsx", ".ts", ".tsx"] : List String) →
      extract_imports_from_file fs rel = []) ∧
    (pathExists fs rel = false → extract_imports_from_file fs rel = []) ∧
    (readContent fs rel = none → extract_imports_from_file fs rel = []) ∧
    ((∀ line ∈ splitNl content.data, pyLineMatch line = none) →
      _extract_python_imports content = []) ∧
    ((∀ line ∈ splitNl content.data, jsLineMatch line = none) →
      _extract_javascript_imports content = []) := by
  refine ⟨?_, ?_, ?_, ?_, ?_⟩
  · intro h
    unfold extract_imports_from_file
    by_cases hex : pathExists fs rel
    · rw [if_pos hex]
      cases hr : readContent fs rel with
      | none => rfl
      | some c =>
        have h1 : ¬ suffix (lastPart rel) = ".py" := by
          intro hh; exact h (by rw [hh]; decide)
        have h2 : suffix (lastPart rel) ∉ ([".js", ".jsx", ".ts", ".tsx"] : List String) := by
          intro hh; exact h (List.mem_cons_of_mem _ hh)
        simp only [if_neg h1, if_neg h2]
    · rw [if_neg hex]
  · intro h
    unfold extract_imports_from_file
    rw [h]
    rfl
  · intro h
    unfold extract_imports_from_file
    by_cases hex : pathExists fs rel
    · rw [if_pos hex, h]
    · rw [if_neg hex]
  · intro h
    unfold _extract_python_imports
    rw [List.filterMap_eq_nil_iff.mpr h]
    rfl
  · intro h
    unfold _extract_javascript_imports
    rw [List.filterMap_eq_nil_iff.mpr h]
    rfl

/-- C8 (witness): a readable non-importable suffix, a missing path, an
unreadable entry, and pattern-free content all extract to `[]`. -/
theorem extraction_total_witness :
    extract_imports_from_file fsW ["notes.txt"] = [] ∧
    extract_imports_from_file fsW ["missing.py"] = [] ∧
    extract_imports_from_file fsW ["docs"] = [] ∧
    _extract_python_imports "hello" = [] ∧
    _extract_javascript_imports "hello" = [] :=
  ⟨(extraction_total fsW ["notes.txt"] "").1 (by decide),
   (extraction_total fsW ["missing.py"] "").2.1 (by decide),
   (extraction_total fsW ["docs"] "").2.2.1 (by decide),
   (extraction_total fsW [] "hello").2.2.2.1 (by decide),
   (extraction_total fsW [] "hello").2.2.2.2 (by decide)⟩

/-- A non-empty list is its `dropLast` followed by its last element. -/
theorem dropLast_append_getLastD (l : List String) (d : String) (h : l ≠ []) :
    l.dropLast ++ [l.getLastD d] = l := by
  have h1 := List.dropLast_append_getLast h
  have h2 : l.getLastD d = l.getLast h := by
    rw [List.getLastD_eq_getLast?, List.getLast?_eq_getLast l h]
    rfl
  rw [h2]
  exact h1

/-- Non-empty lists agreeing on `dropLast` and last component are equal. -/
theorem eq_of_dropLast_lastPart (l m : List String) (hl : l ≠ []) (hm : m ≠ [])
    (h1 : l.dropLast = m.dropLast) (h2 : lastPart l = lastPart m) : l = m := by
  have el := dropLast_append_getLastD l "" hl
  have em := dropLast_append_getLastD m "" hm
  unfold lastPart at h2
  rw [← el, ← em, h1, h2]

/-- Left cancellation for string append. -/
theorem str_append_left_cancel (pre a b : String) (h : pre ++ a = pre ++ b) : a = b := by
  have hd := congrArg String.data h
  rw [String.data_append, String.data_append] at hd
  have := List.append_cancel_left hd
  cases a
  cases b
  exact congrArg String.mk this

/-- A `../name` candidate is never equal to a `./name` candidate. -/
theorem parent_ne_same (s t : String) : ("../" ++ s) ≠ ("./" ++ t) := by
  intro h
  have hd := congrArg String.data h
  rw [String.data_append, String.data_append] at hd
  rw [show ("../".data) = [Char.ofNat 46, Char.ofNat 46, Char.ofNat 47] from rfl,
      show ("./".data) = [Char.ofNat 46, Char.ofNat 47] from rfl] at hd
  simp at hd

/-- A record of a successful scan names the last component of its own
full path, and has a non-empty relative path when the filesystem only
enumerates proper descendants of the root. -/
theorem scanned_record_shape (fs : FileSystem) (files : List FileInfo) (fi : FileInfo)
    (h : scan_project fs = .ok files) (hfi : fi ∈ files)
    (hwf : ∀ e ∈ fs.entries, e.relParts ≠ []) :
    fi.name = lastPart (fs.rootParts ++ fi.path) ∧ fi.path ≠ [] := by
  obtain ⟨e, st, he, _, rfl⟩ := scanLoop_mem fs.rootParts fs.entries files fi h hfi
  exact ⟨rfl, hwf e he⟩

/-- C10.  A scanned file is never offered as an import candidate of
itself: the candidate list of `find_import_targets` on a scanned file
never contains the file's own `./name` form — the same-directory pass
excludes the declaring file, and the parent pass only produces
`../name` forms. -/
theorem find_import_targets_no_self (fs : FileSystem) (files : List FileInfo)
    (fi0 : FileInfo)
    (hscan : scan_project fs = .ok files)
    (hwf : ∀ e ∈ fs.entries, e.relParts ≠ [])
    (hfi : fi0 ∈ files) :
    ("./" ++ fi0.name) ∉ find_import_targets fs files fi0.path := by
  intro hmem
  unfold find_import_targets at hmem
  cases hex : pathExists fs fi0.path with
  | false => rw [hex] at hmem; simp at hmem
  | true =>
    rw [hex] at hmem
    simp only [if_true] at hmem
    rcases List.mem_append.mp hmem with hs | hp
    · obtain ⟨fi, hfimem, hif⟩ := List.mem_filterMap.mp hs
      by_cases hcond : (fs.rootParts ++ fi.path).dropLast =
            (fs.rootParts ++ fi0.path).dropLast ∧
          fs.rootParts ++ fi.path ≠ fs.rootParts ++ fi0.path ∧
          fi.is_importable = true
      · rw [if_pos hcond] at hif
        have hnm : fi.name = fi0.name :=
          str_append_left_cancel "./" fi.name fi0.name (Option.some.inj hif)
        obtain ⟨hn1, hp1⟩ := scanned_record_shape fs files fi hscan hfimem hwf
        obtain ⟨hn0, hp0⟩ := scanned_record_shape fs files fi0 hscan hfi hwf
        have hne1 : fs.rootParts ++ fi.path ≠ [] := by
          intro hh; exact hp1 (List.append_eq_nil.mp hh).2
        have hne0 : fs.rootParts ++ fi0.path ≠ [] := by
          intro hh; exact hp0 (List.append_eq_nil.mp hh).2
        have heq : fs.rootParts ++ fi.path = fs.rootParts ++ fi0.path :=
          eq_of_dropLast_lastPart _ _ hne1 hne0 hcond.1 (by rw [← hn1, ← hn0, hnm])
        exact hcond.2.1 heq
      · rw [if_neg hcond] at hif
        cases hif
    · by_cases hroot : (fs.rootParts ++ fi0.path).dropLast ≠ fs.rootParts
      · rw [if_pos hroot] at hp
        obtain ⟨fi, _, hif⟩ := List.mem_filterMap.mp hp
        by_cases hcond : (fs.rootParts ++ fi.path).dropLast =
              ((fs.rootParts ++ fi0.path).dropLast).dropLast ∧
            fi.is_importable = true
        · rw [if_pos hcond] at hif
          exact parent_ne_same fi.name fi0.name (Option.some.inj hif)
        · rw [if_neg hcond] at hif
          cases hif
      · rw [if_neg hroot] at hp
        cases hp

/-- C10 (witness): `main.py` in `fsW` is not its own candidate. -/
theorem find_import_targets_no_self_witness :
    ("./" ++ fiMainW.name) ∉ find_import_targets fsW filesW fiMainW.path :=
  find_import_targets_no_self fsW filesW fiMainW rfl (by decide) (by decide)

end GoToImport
